import Mathlib

set_option maxRecDepth 8000

/-!
Verification of the Ledger hardware-wallet transport layer of this
repository (`libwallet/src/hw/`): APDU command/answer (de)serialization
(`apdu_types.rs`), the HID packet framing of `write_apdu` / `read_apdu` /
`exchange` (`transportnativehid.rs`), and the chunked message protocol of
`send_chunks` (`ledgerdevice.rs`).

The Rust code is embedded shallowly: byte buffers are `List ℕ` whose
elements are byte values, machine arithmetic is `ℕ` with explicit `% 256`
where the source truncates, the HID device is an explicit oracle
(a list of reads, or a function from exchange index to answer), and
panics are modelled as `Option.none`.
-/

namespace GrinHW

/-- `LEDGER_CHANNEL` from `transportnativehid.rs`. -/
def LEDGER_CHANNEL : ℕ := 0x0101

/-- `LEDGER_PACKET_SIZE` from `transportnativehid.rs`. -/
def LEDGER_PACKET_SIZE : ℕ := 64

/-- `USER_MESSAGE_CHUNK_SIZE` from `ledgerdevice.rs`. -/
def USER_MESSAGE_CHUNK_SIZE : ℕ := 250

/-- Big-endian 16-bit value from two bytes (`read_u16::<BigEndian>`). -/
def be16 (hi lo : ℕ) : ℕ := hi * 256 + lo

/-- `APDUCommand` from `apdu_types.rs`: bytes are modelled as `ℕ`. -/
structure APDUCommand where
  cla : ℕ
  ins : ℕ
  p1 : ℕ
  p2 : ℕ
  data : List ℕ
deriving Repr, DecidableEq

/-- `APDUCommand::serialize` from `apdu_types.rs`:
`vec![cla, ins, p1, p2, data.len() as u8]` followed by the payload; the
`as u8` cast truncates the length to `% 256`. -/
def APDUCommand.serialize (c : APDUCommand) : List ℕ :=
  c.cla :: c.ins :: c.p1 :: c.p2 :: (c.data.length % 256) :: c.data

/-- `APDUAnswer` from `apdu_types.rs`. -/
structure APDUAnswer where
  data : List ℕ
  retcode : ℕ
deriving Repr, DecidableEq

/-- `APDUAnswer::from_answer` from `apdu_types.rs`:
`retcode = (answer[len-2] << 8) + answer[len-1]`, `data = answer[..len-2]`.
For `answer.len() < 2` the index `answer.len() - 2` underflows and the
indexing panics; the panic is modelled as `none`. -/
def APDUAnswer.from_answer (answer : List ℕ) : Option APDUAnswer :=
  if 2 ≤ answer.length then
    some { data := answer.take (answer.length - 2),
           retcode := be16 (answer.getD (answer.length - 2) 0)
                           (answer.getD (answer.length - 1) 0) }
  else
    none

/-- `LedgerHIDError` from `ledger_error.rs` (the constructors the transport
code can produce). -/
inductive LedgerHIDError where
  | DeviceNotFound : LedgerHIDError
  | Comm : String → LedgerHIDError
  | Hid : LedgerHIDError
deriving Repr, DecidableEq

/-- `LedgerAppError` from `ledger_error.rs` (the constructors `send_chunks`
can produce). -/
inductive LedgerAppError where
  | InvalidEmptyMessage : LedgerAppError
  | InvalidChunkPayloadType : LedgerAppError
  | InvalidMessageSize : LedgerAppError
  | AppSpecific : ℕ → String → LedgerAppError
  | Transport : LedgerAppError
deriving Repr, DecidableEq

/-- `ChunkPayloadType` discriminants from `ledger_types.rs`. -/
def ChunkPayloadType.Init : ℕ := 0x00

/-- `ChunkPayloadType::Add as u8`. -/
def ChunkPayloadType.Add : ℕ := 0x01

/-- `ChunkPayloadType::Last as u8`. -/
def ChunkPayloadType.Last : ℕ := 0x02

/-- Rust `slice::chunks(n)`: splits a list into consecutive pieces of `n`
elements, the last piece possibly shorter; the empty slice yields no
pieces.  (For `n = 0` Rust panics; all call sites use `n = 59` or
`n = 250`.) -/
def chunkList (n : ℕ) : List ℕ → List (List ℕ)
  | [] => []
  | x :: xs => (x :: xs.take (n - 1)) :: chunkList n (xs.drop (n - 1))
termination_by l => l.length
decreasing_by
  simp only [List.length_drop, List.length_cons]
  omega

/-- `buffer[i..i+s.length].copy_from_slice(s)`: overwrite the slice of `l`
starting at `i` with `s` (meaningful when `i + s.length ≤ l.length`). -/
def writeSlice (l : List ℕ) (i : ℕ) (s : List ℕ) : List ℕ :=
  l.take i ++ s ++ l.drop (i + s.length)

/-- The loop body of `TransportNativeHID::write_apdu`: for each chunk, the
(reused) 64-byte buffer gets the sequence index written big-endian at
bytes 3–4 and the chunk copied at offset 5; the resulting buffer is
written to the device and carried over, un-re-zeroed, to the next
iteration.  Returns the list of packets written. -/
def write_loop (buf : List ℕ) (idx : ℕ) : List (List ℕ) → List (List ℕ)
  | [] => []
  | ch :: rest =>
    let buf2 := writeSlice ((buf.set 3 ((idx >>> 8) % 256)).set 4 (idx % 256)) 5 ch
    buf2 :: write_loop buf2 (idx + 1) rest

/-- `TransportNativeHID::write_apdu`: prefix the command with its 2-byte
big-endian length, split into `LEDGER_PACKET_SIZE - 5 = 59`-byte chunks,
and write one 64-byte packet per chunk (channel big-endian at bytes 0–1,
tag `0x05` at byte 2).  The device writes themselves are modelled as
always accepted; the function returns the packets written. -/
def write_apdu (channel : ℕ) (apdu_command : List ℕ) : List (List ℕ) :=
  let command_length := apdu_command.length
  let in_data := ((command_length >>> 8) % 256) :: (command_length % 256) :: apdu_command
  let buffer := (((List.replicate LEDGER_PACKET_SIZE 0).set 0
      ((channel >>> 8) % 256)).set 1 (channel % 256)).set 2 0x05
  write_loop buffer 0 (chunkList (LEDGER_PACKET_SIZE - 5) in_data)

/-- The mutable state of the `TransportNativeHID::read_apdu` loop. -/
structure ReadState where
  sequence_idx : ℕ
  expected_apdu_len : ℕ
  apdu_answer : List ℕ
deriving Repr, DecidableEq

/-- The initial state of `read_apdu` (`sequence_idx = 0`,
`expected_apdu_len = 0`, empty accumulation buffer as passed by
`exchange`). -/
def initReadState : ReadState := ⟨0, 0, []⟩

/-- One iteration of the `read_apdu` loop, fed the result of
`device.read_timeout`: `res` is the byte count the read reported and
`buffer` the 64-byte buffer contents after the read.  Returns an error,
the next state (`Sum.inl`), or the final accumulated answer (`Sum.inr`). -/
def read_step (st : ReadState) (res : ℕ) (buffer : List ℕ) :
    Except LedgerHIDError (ReadState ⊕ List ℕ) :=
  if (st.sequence_idx = 0 ∧ res < 7) ∨ res < 5 then
    .error (.Comm "Read error. Incomplete header")
  else
    let rcv_seq_idx := be16 (buffer.getD 3 0) (buffer.getD 4 0)
    if rcv_seq_idx ≠ st.sequence_idx then
      .error (.Comm "Invalid sequence idx")
    else
      let expected :=
        if rcv_seq_idx = 0 then be16 (buffer.getD 5 0) (buffer.getD 6 0)
        else st.expected_apdu_len
      let pos : ℕ := if rcv_seq_idx = 0 then 7 else 5
      let available := buffer.length - pos
      let missing := expected - st.apdu_answer.length
      let new_chunk := (buffer.drop pos).take (min available missing)
      let answer := st.apdu_answer ++ new_chunk
      if expected ≤ answer.length then .ok (.inr answer)
      else .ok (.inl ⟨st.sequence_idx + 1, expected, answer⟩)

/-- `TransportNativeHID::read_apdu`, driven by an explicit list of device
reads (each a reported byte count and the buffer contents).  `none` means
the reads ran out while the loop still wanted more (the real loop would
block on the next `read_timeout`). -/
def read_apdu (reads : List (ℕ × List ℕ)) (st : ReadState) :
    Option (Except LedgerHIDError (List ℕ)) :=
  match reads with
  | [] => none
  | (res, buffer) :: rest =>
    match read_step st res buffer with
    | .error e => some (.error e)
    | .ok (.inr ans) => some (.ok ans)
    | .ok (.inl st2) => read_apdu rest st2

/-- `TransportNativeHID::exchange`: `write_apdu`, then `read_apdu` from the
initial state, then the `< 2` guard, then `APDUAnswer::from_answer`.  The
`from_answer` panic branch is kept explicit (`none`) so that its
unreachability can be proved. -/
def exchange (reads : List (ℕ × List ℕ)) (command : APDUCommand) :
    Option (Except LedgerHIDError APDUAnswer) :=
  let _packets := write_apdu LEDGER_CHANNEL command.serialize
  match read_apdu reads initReadState with
  | none => none
  | some (.error e) => some (.error e)
  | some (.ok answer) =>
    if answer.length < 2 then
      some (.error (.Comm "response was too short"))
    else
      match APDUAnswer.from_answer answer with
      | some a => some (.ok a)
      | none => none

/-- `LedgerDevice::map_apdu_error_description` from `ledgerdevice.rs`. -/
def map_apdu_error_description (retcode : ℕ) : String :=
  if retcode = 0x6400 then "APDU_CODE_EXECUTION_ERROR - No information given (NV-Ram not changed)"
  else if retcode = 0x6700 then "APDU_CODE_WRONG_LENGTH - Wrong length"
  else if retcode = 0x6982 then "APDU_CODE_EMPTY_BUFFER"
  else if retcode = 0x6983 then "APDU_CODE_OUTPUT_BUFFER_TOO_SMALL - "
  else if retcode = 0x6984 then "APDU_CODE_DATA_INVALID - data reversibly blocked (invalidated)"
  else if retcode = 0x6985 then "APDU_CODE_CONDITIONS_NOT_SATISFIED - Conditions of use not satisfied"
  else if retcode = 0x6986 then "APDU_CODE_COMMAND_NOT_ALLOWED - Command not allowed (no current EF)"
  else if retcode = 0x6A80 then "APDU_CODE_BAD_KEY_HANDLE - The parameters in the data field are incorrect"
  else if retcode = 0x6B00 then "APDU_CODE_INVALIDP1P2 - Wrong parameter(s) P1-P2"
  else if retcode = 0x6D00 then "APDU_CODE_INS_NOT_SUPPORTED - Instruction code not supported or invalid"
  else if retcode = 0x6E00 then "APDU_CODE_CLA_NOT_SUPPORTED - Class not supported"
  else if retcode = 0x6F00 then "APDU_CODE_UNKNOWN - "
  else if retcode = 0x6F01 then "APDU_CODE_SIGN_VERIFY_ERROR - "
  else "[APDU_ERROR] Unknown"

/-- The chunk-sending loop of `LedgerDevice::send_chunks`.  The transport
is an oracle `tr` mapping the index of an exchange (0 = the start command)
to the `APDUAnswer` it returns.  Also returns the list of chunk commands
actually exchanged. -/
def send_loop (tr : ℕ → APDUAnswer) (cla ins last_chunk_index : ℕ) (response : APDUAnswer) :
    ℕ → List (List ℕ) → Except LedgerAppError APDUAnswer × List APDUCommand
  | _, [] => (.ok response, [])
  | packet_idx, chunk :: rest =>
    let p1 := if packet_idx = last_chunk_index then ChunkPayloadType.Last
              else ChunkPayloadType.Add
    let command : APDUCommand := ⟨cla, ins, p1, 0, chunk⟩
    let resp := tr (packet_idx + 1)
    if resp.retcode ≠ 0x9000 then
      (.error (.AppSpecific resp.retcode (map_apdu_error_description resp.retcode)),
        [command])
    else
      let tail := send_loop tr cla ins last_chunk_index resp (packet_idx + 1) rest
      (tail.1, command :: tail.2)

/-- `LedgerDevice::send_chunks`: split the message into 250-byte pieces,
reject an empty or oversized message or a non-`Init` start command before
any I/O, exchange the start command, then stream the pieces with `Add` /
`Last` tags, aborting on the first non-`0x9000` status word.  Returns the
result together with the list of commands exchanged, in order. -/
def send_chunks (tr : ℕ → APDUAnswer) (start_command : APDUCommand) (message : List ℕ) :
    Except LedgerAppError APDUAnswer × List APDUCommand :=
  let chunks := chunkList USER_MESSAGE_CHUNK_SIZE message
  if chunks.length = 0 then (.error .InvalidEmptyMessage, [])
  else if 255 < chunks.length then (.error .InvalidMessageSize, [])
  else if start_command.p1 ≠ ChunkPayloadType.Init then
    (.error .InvalidChunkPayloadType, [])
  else
    let response := tr 0
    if response.retcode ≠ 0x9000 then
      (.error (.AppSpecific response.retcode (map_apdu_error_description response.retcode)),
        [start_command])
    else
      let last_chunk_index := chunks.length - 1
      let tail := send_loop tr start_command.cla start_command.ins last_chunk_index
        response 0 chunks
      (tail.1, start_command :: tail.2)

end GrinHW

namespace GrinHW

/-! ### Helper lemmas about `getD`, `set`, `writeSlice` and `chunkList` -/

theorem getD_eq_getElem? (l : List ℕ) (j d : ℕ) : l.getD j d = l[j]?.getD d := by
  rw [List.getD_eq_getD_get?, List.get?_eq_getElem?]

theorem getD_set_self (l : List ℕ) (i v d : ℕ) (h : i < l.length) :
    (l.set i v).getD i d = v := by
  rw [getD_eq_getElem?, List.getElem?_set_eq_of_lt v h]
  rfl

theorem getD_set_ne (l : List ℕ) (i j v d : ℕ) (h : i ≠ j) :
    (l.set i v).getD j d = l.getD j d := by
  rw [getD_eq_getElem?, List.getElem?_set_ne h, getD_eq_getElem?]

theorem getD_replicate (n a j d : ℕ) (h : j < n) :
    (List.replicate n a).getD j d = a := by
  rw [getD_eq_getElem?, List.getElem?_replicate_of_lt h]
  rfl

theorem writeSlice_length (l : List ℕ) (i : ℕ) (s : List ℕ)
    (h : i + s.length ≤ l.length) : (writeSlice l i s).length = l.length := by
  simp only [writeSlice, List.length_append, List.length_take, List.length_drop]
  omega

theorem writeSlice_getD_lt (l : List ℕ) (i : ℕ) (s : List ℕ) (j d : ℕ)
    (hj : j < i) (hi : i ≤ l.length) :
    (writeSlice l i s).getD j d = l.getD j d := by
  have htk : (l.take i).length = i := by
    rw [List.length_take]; omega
  rw [writeSlice, List.append_assoc, getD_eq_getElem?, List.getElem?_append,
    getD_eq_getElem?]
  rw [htk]
  simp only [hj, if_pos]
  rw [List.getElem?_take_of_lt hj]

theorem writeSlice_getD_ge (l : List ℕ) (i : ℕ) (s : List ℕ) (j d : ℕ)
    (hle : i + s.length ≤ l.length) (hj : i + s.length ≤ j) :
    (writeSlice l i s).getD j d = l.getD j d := by
  have hi : i ≤ l.length := by omega
  have htk : (l.take i).length = i := by
    rw [List.length_take]; omega
  rw [writeSlice, List.append_assoc, getD_eq_getElem?, List.getElem?_append,
    getD_eq_getElem?, htk]
  have h1 : ¬ j < i := by omega
  rw [if_neg h1, List.getElem?_append]
  have h2 : ¬ j - i < s.length := by omega
  rw [if_neg h2, List.getElem?_drop]
  have h3 : i + s.length + (j - i - s.length) = j := by omega
  rw [h3]

theorem writeSlice_drop_take (l : List ℕ) (i : ℕ) (s : List ℕ) (hi : i ≤ l.length) :
    ((writeSlice l i s).drop i).take s.length = s := by
  have htk : (l.take i).length = i := by
    rw [List.length_take]; omega
  rw [writeSlice, List.append_assoc, List.drop_left' htk, List.take_left' rfl]

theorem chunkList_length (n : ℕ) (hn : 1 ≤ n) (l : List ℕ) :
    (chunkList n l).length = (l.length + n - 1) / n := by
  induction l using chunkList.induct n with
  | case1 =>
    simp only [chunkList, List.length_nil]
    rw [Nat.div_eq_of_lt (by omega)]
  | case2 x xs ih =>
    simp only [chunkList, List.length_cons, List.length_drop] at ih ⊢
    rw [ih]
    rcases le_or_lt (n - 1) xs.length with h | h
    · have e1 : xs.length - (n - 1) + n - 1 = xs.length := by omega
      have e2 : xs.length + 1 + n - 1 = xs.length + n := by omega
      rw [e1, e2, Nat.add_div_right _ (by omega)]
    · have e1 : xs.length - (n - 1) + n - 1 = n - 1 := by omega
      have e2 : xs.length + 1 + n - 1 = xs.length + n := by omega
      have e3 : (xs.length + n) / n = 1 := Nat.div_eq_of_lt_le (by omega) (by omega)
      rw [e1, e2, Nat.div_eq_of_lt (by omega), e3]

theorem chunkList_mem_length (n : ℕ) (hn : 1 ≤ n) (l : List ℕ) :
    ∀ c ∈ chunkList n l, 1 ≤ c.length ∧ c.length ≤ n := by
  induction l using chunkList.induct n with
  | case1 =>
    intro c hc
    simp [chunkList] at hc
  | case2 x xs ih =>
    intro c hc
    rw [chunkList] at hc
    rcases List.mem_cons.mp hc with h | h
    · subst h
      simp only [List.length_cons, List.length_take]
      omega
    · exact ih c h

theorem getD_cons_cases (a : List ℕ) (t : List (List ℕ)) (k : ℕ) :
    (a :: t).getD k [] = if k = 0 then a else t.getD (k - 1) [] := by
  cases k with
  | zero => simp
  | succ m => simp

/-- Loop invariant of `write_loop`: one packet per chunk; each packet is 64
bytes, keeps bytes 0–2 of the initial buffer, has its sequence index
big-endian at bytes 3–4 and its chunk at offset 5, and beyond the chunk
coincides with the previous packet (with the initial buffer playing the
role of "previous" for packet 0) — the buffer is reused, not re-zeroed. -/
theorem write_loop_spec (chunks : List (List ℕ)) :
    ∀ (buf : List ℕ) (idx : ℕ), buf.length = 64 →
      (∀ c ∈ chunks, c.length ≤ 59) →
      (write_loop buf idx chunks).length = chunks.length ∧
      (∀ i, i < chunks.length →
        ((write_loop buf idx chunks).getD i []).length = 64 ∧
        (∀ j, j < 3 →
          ((write_loop buf idx chunks).getD i []).getD j 0 = buf.getD j 0) ∧
        ((write_loop buf idx chunks).getD i []).getD 3 0 = ((idx + i) >>> 8) % 256 ∧
        ((write_loop buf idx chunks).getD i []).getD 4 0 = (idx + i) % 256 ∧
        (((write_loop buf idx chunks).getD i []).drop 5).take (chunks.getD i []).length
          = chunks.getD i [] ∧
        (∀ j, 5 + (chunks.getD i []).length ≤ j →
          ((write_loop buf idx chunks).getD i []).getD j 0 =
            (if i = 0 then buf
             else (write_loop buf idx chunks).getD (i - 1) []).getD j 0)) := by
  induction chunks with
  | nil =>
    intro buf idx hbuf hch
    refine ⟨rfl, ?_⟩
    intro i hi
    simp at hi
  | cons c rest ih =>
    intro buf idx hbuf hch
    have hc : c.length ≤ 59 := hch c (List.mem_cons_self c rest)
    have hsl : ((buf.set 3 ((idx >>> 8) % 256)).set 4 (idx % 256)).length = 64 := by
      simp [hbuf]
    have hcond : 5 + c.length ≤ ((buf.set 3 ((idx >>> 8) % 256)).set 4 (idx % 256)).length := by
      rw [hsl]; omega
    have hp0len :
        (writeSlice ((buf.set 3 ((idx >>> 8) % 256)).set 4 (idx % 256)) 5 c).length = 64 := by
      rw [writeSlice_length _ _ _ hcond, hsl]
    have hhead : ∀ j, j < 3 →
        (writeSlice ((buf.set 3 ((idx >>> 8) % 256)).set 4 (idx % 256)) 5 c).getD j 0
          = buf.getD j 0 := by
      intro j hj
      rw [writeSlice_getD_lt _ _ _ _ _ (by omega) (by rw [hsl]; omega),
        getD_set_ne _ _ _ _ _ (by omega), getD_set_ne _ _ _ _ _ (by omega)]
    obtain ⟨ihlen, ihspec⟩ :=
      ih (writeSlice ((buf.set 3 ((idx >>> 8) % 256)).set 4 (idx % 256)) 5 c)
        (idx + 1) hp0len (fun d hd => hch d (List.mem_cons_of_mem c hd))
    have hunfold : write_loop buf idx (c :: rest)
        = (writeSlice ((buf.set 3 ((idx >>> 8) % 256)).set 4 (idx % 256)) 5 c)
          :: write_loop (writeSlice ((buf.set 3 ((idx >>> 8) % 256)).set 4 (idx % 256)) 5 c)
            (idx + 1) rest := rfl
    rw [hunfold]
    refine ⟨by simp only [List.length_cons, ihlen], ?_⟩
    intro i hi
    cases i with
    | zero =>
      refine ⟨by simpa using hp0len, by simpa using hhead, ?_, ?_, ?_, ?_⟩
      · simp only [List.getD_cons_zero, Nat.add_zero]
        rw [writeSlice_getD_lt _ _ _ _ _ (by omega) (by rw [hsl]; omega),
          getD_set_ne _ _ _ _ _ (by omega),
          getD_set_self _ _ _ _ (by rw [hbuf]; omega)]
      · simp only [List.getD_cons_zero, Nat.add_zero]
        rw [writeSlice_getD_lt _ _ _ _ _ (by omega) (by rw [hsl]; omega),
          getD_set_self _ _ _ _ (by rw [List.length_set, hbuf]; omega)]
      · simp only [List.getD_cons_zero]
        exact writeSlice_drop_take _ 5 c (by rw [hsl]; omega)
      · intro j hj
        simp only [List.getD_cons_zero] at hj ⊢
        simp only [if_true]
        rw [writeSlice_getD_ge _ _ _ _ _ hcond hj,
          getD_set_ne _ _ _ _ _ (by omega), getD_set_ne _ _ _ _ _ (by omega)]
    | succ k =>
      have hk : k < rest.length := by
        simp only [List.length_cons] at hi
        omega
      obtain ⟨L, H, B3, B4, CH, TL⟩ := ihspec k hk
      refine ⟨by simpa using L, ?_, ?_, ?_, by simpa using CH, ?_⟩
      · intro j hj
        simp only [List.getD_cons_succ]
        rw [H j hj]
        exact hhead j hj
      · simp only [List.getD_cons_succ]
        have e : idx + (k + 1) = idx + 1 + k := by omega
        rw [e]
        exact B3
      · simp only [List.getD_cons_succ]
        have e : idx + (k + 1) = idx + 1 + k := by omega
        rw [e]
        exact B4
      · intro j hj
        simp only [List.getD_cons_succ] at hj ⊢
        rw [if_neg (Nat.succ_ne_zero k), Nat.add_sub_cancel, getD_cons_cases]
        exact TL j hj

theorem getD_mem {α : Type} (l : List α) (i : ℕ) (d : α) (h : i < l.length) :
    l.getD i d ∈ l := by
  rw [List.getD_eq_getElem l d h]
  exact List.getElem_mem h

/-! ### C1: `write_apdu` packet layout -/

/-- C1 counterexample: for the 58-byte command `0xAA, …, 0xAA`, the
length-prefixed stream is 60 bytes and splits into a 59-byte chunk and a
1-byte chunk `[0xAA]`; in the second packet, bytes 6 and 7 — "remaining"
bytes past the 1-byte chunk, which the claim says are zero — hold the
stale values 58 and 0xAA left over from the first packet. -/
theorem C1_write_apdu_stale_byte :
    (chunkList 59 (((List.replicate 58 0xAA).length >>> 8) % 256
        :: ((List.replicate 58 0xAA).length % 256) :: List.replicate 58 0xAA)).getD 1 []
      = [0xAA] ∧
    ((write_apdu LEDGER_CHANNEL (List.replicate 58 0xAA)).getD 1 []).getD 6 0 = 58 ∧
    ((write_apdu LEDGER_CHANNEL (List.replicate 58 0xAA)).getD 1 []).getD 7 0 = 0xAA := by
  refine ⟨?_, ?_, ?_⟩
  · simp [chunkList, List.replicate]
  · simp [write_apdu, chunkList, write_loop, writeSlice, List.replicate,
      LEDGER_CHANNEL, LEDGER_PACKET_SIZE]
  · simp [write_apdu, chunkList, write_loop, writeSlice, List.replicate,
      LEDGER_CHANNEL, LEDGER_PACKET_SIZE]

/-- C1 (amended): `write_apdu` prepends the 2-byte big-endian length,
splits into 59-byte chunks, and writes one 64-byte packet per chunk with
channel `0x0101` big-endian at bytes 0–1, tag `0x05` at byte 2, the
sequence index big-endian at bytes 3–4 and the chunk at offset 5.  The
bytes past the chunk are zero in the FIRST packet only; in every later
packet they retain the previous packet's bytes at those positions, because
the 64-byte buffer is reused without re-zeroing. -/
theorem C1_write_apdu_layout (cmd : List ℕ) :
    (write_apdu LEDGER_CHANNEL cmd).length
      = (chunkList 59 (((cmd.length >>> 8) % 256) :: (cmd.length % 256) :: cmd)).length ∧
    (∀ i, i < (chunkList 59 (((cmd.length >>> 8) % 256) :: (cmd.length % 256) :: cmd)).length →
      ((write_apdu LEDGER_CHANNEL cmd).getD i []).length = 64 ∧
      ((write_apdu LEDGER_CHANNEL cmd).getD i []).getD 0 0 = 0x01 ∧
      ((write_apdu LEDGER_CHANNEL cmd).getD i []).getD 1 0 = 0x01 ∧
      ((write_apdu LEDGER_CHANNEL cmd).getD i []).getD 2 0 = 0x05 ∧
      ((write_apdu LEDGER_CHANNEL cmd).getD i []).getD 3 0 = (i >>> 8) % 256 ∧
      ((write_apdu LEDGER_CHANNEL cmd).getD i []).getD 4 0 = i % 256 ∧
      (((write_apdu LEDGER_CHANNEL cmd).getD i []).drop 5).take
          ((chunkList 59 (((cmd.length >>> 8) % 256) :: (cmd.length % 256) :: cmd)).getD i []).length
        = (chunkList 59 (((cmd.length >>> 8) % 256) :: (cmd.length % 256) :: cmd)).getD i [] ∧
      (∀ j, 5 + ((chunkList 59 (((cmd.length >>> 8) % 256)
            :: (cmd.length % 256) :: cmd)).getD i []).length ≤ j →
        ((write_apdu LEDGER_CHANNEL cmd).getD i []).getD j 0 =
          if i = 0 then 0
          else ((write_apdu LEDGER_CHANNEL cmd).getD (i - 1) []).getD j 0)) := by
  have hb0len : ((((List.replicate 64 0).set 0 ((LEDGER_CHANNEL >>> 8) % 256)).set 1
      (LEDGER_CHANNEL % 256)).set 2 0x05).length = 64 := by
    simp
  have hunfold : write_apdu LEDGER_CHANNEL cmd
      = write_loop ((((List.replicate 64 0).set 0 ((LEDGER_CHANNEL >>> 8) % 256)).set 1
          (LEDGER_CHANNEL % 256)).set 2 0x05) 0
        (chunkList 59 (((cmd.length >>> 8) % 256) :: (cmd.length % 256) :: cmd)) := rfl
  have hch : ∀ c ∈ chunkList 59 (((cmd.length >>> 8) % 256) :: (cmd.length % 256) :: cmd),
      c.length ≤ 59 :=
    fun c hc => (chunkList_mem_length 59 (by omega) _ c hc).2
  have hch1 : ∀ c ∈ chunkList 59 (((cmd.length >>> 8) % 256) :: (cmd.length % 256) :: cmd),
      1 ≤ c.length :=
    fun c hc => (chunkList_mem_length 59 (by omega) _ c hc).1
  obtain ⟨hlen, hspec⟩ := write_loop_spec
    (chunkList 59 (((cmd.length >>> 8) % 256) :: (cmd.length % 256) :: cmd))
    ((((List.replicate 64 0).set 0 ((LEDGER_CHANNEL >>> 8) % 256)).set 1
      (LEDGER_CHANNEL % 256)).set 2 0x05) 0 hb0len hch
  have hb0 : ∀ j d : ℕ, j < 3 →
      (((((List.replicate 64 0).set 0 ((LEDGER_CHANNEL >>> 8) % 256)).set 1
        (LEDGER_CHANNEL % 256)).set 2 0x05).getD j d)
        = if j = 0 then 0x01 else if j = 1 then 0x01 else 0x05 := by
    intro j d hj
    interval_cases j
    · rw [getD_set_ne _ _ _ _ _ (by omega), getD_set_ne _ _ _ _ _ (by omega),
        getD_set_self _ _ _ _ (by simp)]
      rfl
    · rw [getD_set_ne _ _ _ _ _ (by omega),
        getD_set_self _ _ _ _ (by simp)]
      rfl
    · rw [getD_set_self _ _ _ _ (by simp)]
      rfl
  have hbz : ∀ j : ℕ, 3 ≤ j →
      (((((List.replicate 64 0).set 0 ((LEDGER_CHANNEL >>> 8) % 256)).set 1
        (LEDGER_CHANNEL % 256)).set 2 0x05).getD j 0) = 0 := by
    intro j hj
    rw [getD_set_ne _ _ _ _ _ (by omega), getD_set_ne _ _ _ _ _ (by omega),
      getD_set_ne _ _ _ _ _ (by omega)]
    rcases lt_or_ge j 64 with h | h
    · exact getD_replicate 64 0 j 0 h
    · exact List.getD_eq_default _ _ (by simpa using h)
  rw [hunfold]
  refine ⟨hlen, ?_⟩
  intro i hi
  obtain ⟨L, H, B3, B4, CH, TL⟩ := hspec i hi
  refine ⟨L, ?_, ?_, ?_, by simpa using B3, by simpa using B4, CH, ?_⟩
  · rw [H 0 (by omega), hb0 0 0 (by omega)]
    rfl
  · rw [H 1 (by omega), hb0 1 0 (by omega)]
    rfl
  · rw [H 2 (by omega), hb0 2 0 (by omega)]
    rfl
  · intro j hj
    rw [TL j hj]
    by_cases h0 : i = 0
    · rw [if_pos h0, if_pos h0]
      have hclen : 1 ≤ ((chunkList 59 (((cmd.length >>> 8) % 256)
          :: (cmd.length % 256) :: cmd)).getD i []).length :=
        hch1 _ (getD_mem _ i [] hi)
      exact hbz j (by omega)
    · rw [if_neg h0, if_neg h0]

/-- Witness for C1 (amended) at the 2-byte command `[0xAA, 0xBB]`
(a single packet), reading off the header bytes and the zero padding at
byte 10 of packet 0. -/
theorem C1_write_apdu_layout_witness :
    ((write_apdu LEDGER_CHANNEL [0xAA, 0xBB]).getD 0 []).length = 64 ∧
    ((write_apdu LEDGER_CHANNEL [0xAA, 0xBB]).getD 0 []).getD 0 0 = 0x01 ∧
    ((write_apdu LEDGER_CHANNEL [0xAA, 0xBB]).getD 0 []).getD 2 0 = 0x05 ∧
    ((write_apdu LEDGER_CHANNEL [0xAA, 0xBB]).getD 0 []).getD 10 0 = 0 := by
  obtain ⟨hlen, hspec⟩ := C1_write_apdu_layout [0xAA, 0xBB]
  have hi : 0 < (chunkList 59 ((([0xAA, 0xBB] : List ℕ).length >>> 8) % 256
      :: (([0xAA, 0xBB] : List ℕ).length % 256) :: [0xAA, 0xBB])).length := by
    simp [chunkList]
  obtain ⟨L, H0, H1, H2, B3, B4, CH, TL⟩ := hspec 0 hi
  have hc : (chunkList 59 ((([0xAA, 0xBB] : List ℕ).length >>> 8) % 256
      :: (([0xAA, 0xBB] : List ℕ).length % 256) :: [0xAA, 0xBB])).getD 0 []
      = [0, 2, 0xAA, 0xBB] := by
    simp [chunkList]
  refine ⟨L, H0, H2, ?_⟩
  have := TL 10 (by rw [hc]; simp)
  simpa using this

/-! ### Branch lemmas for `read_step` -/

theorem read_step_short (st : ReadState) (res : ℕ) (buffer : List ℕ)
    (h : (st.sequence_idx = 0 ∧ res < 7) ∨ res < 5) :
    read_step st res buffer = .error (.Comm "Read error. Incomplete header") := by
  rw [read_step, if_pos h]

theorem read_step_badseq (st : ReadState) (res : ℕ) (buffer : List ℕ)
    (hres : ¬ ((st.sequence_idx = 0 ∧ res < 7) ∨ res < 5))
    (hseq : be16 (buffer.getD 3 0) (buffer.getD 4 0) ≠ st.sequence_idx) :
    read_step st res buffer = .error (.Comm "Invalid sequence idx") := by
  simp only [read_step]
  rw [if_neg hres, if_pos hseq]

theorem read_step_first (res : ℕ) (buffer : List ℕ) (hres : 7 ≤ res)
    (hseq : be16 (buffer.getD 3 0) (buffer.getD 4 0) = 0) :
    read_step initReadState res buffer =
      (if be16 (buffer.getD 5 0) (buffer.getD 6 0) ≤
          ((buffer.drop 7).take (min (buffer.length - 7)
            (be16 (buffer.getD 5 0) (buffer.getD 6 0)))).length
       then .ok (.inr ((buffer.drop 7).take (min (buffer.length - 7)
              (be16 (buffer.getD 5 0) (buffer.getD 6 0)))))
       else .ok (.inl ⟨1, be16 (buffer.getD 5 0) (buffer.getD 6 0),
              (buffer.drop 7).take (min (buffer.length - 7)
                (be16 (buffer.getD 5 0) (buffer.getD 6 0)))⟩)) := by
  simp only [read_step, initReadState]
  rw [if_neg (by omega), hseq]
  simp

theorem read_step_cont (seq exp : ℕ) (ans : List ℕ) (res : ℕ) (buffer : List ℕ)
    (h1 : 1 ≤ seq) (hres : ¬ res < 5)
    (hseq : be16 (buffer.getD 3 0) (buffer.getD 4 0) = seq) :
    read_step ⟨seq, exp, ans⟩ res buffer =
      (if exp ≤
          (ans ++ (buffer.drop 5).take (min (buffer.length - 5) (exp - ans.length))).length
       then .ok (.inr (ans ++ (buffer.drop 5).take (min (buffer.length - 5)
              (exp - ans.length))))
       else .ok (.inl ⟨seq + 1, exp,
              ans ++ (buffer.drop 5).take (min (buffer.length - 5) (exp - ans.length))⟩)) := by
  simp only [read_step]
  rw [if_neg (by omega), hseq]
  have h0 : seq ≠ 0 := by omega
  simp [h0]

/-! ### C6: short reads and bad sequence numbers fail -/

/-- C6: every `read_apdu` loop iteration fails with a communication error
when the device read returns fewer than 7 bytes on the first packet
(`sequence_idx = 0`) or fewer than 5 bytes on a later packet, and fails
with a communication error when the packet's parsed big-endian sequence
number differs from the expected one; in each case `read_apdu` yields that
error (no Answer). -/
theorem C6_read_apdu_errors (st : ReadState) (res : ℕ) (buffer : List ℕ)
    (rest : List (ℕ × List ℕ)) :
    ((st.sequence_idx = 0 ∧ res < 7) ∨ res < 5 →
      read_step st res buffer = .error (.Comm "Read error. Incomplete header") ∧
      read_apdu ((res, buffer) :: rest) st
        = some (.error (.Comm "Read error. Incomplete header"))) ∧
    (¬ ((st.sequence_idx = 0 ∧ res < 7) ∨ res < 5) →
      be16 (buffer.getD 3 0) (buffer.getD 4 0) ≠ st.sequence_idx →
      read_step st res buffer = .error (.Comm "Invalid sequence idx") ∧
      read_apdu ((res, buffer) :: rest) st
        = some (.error (.Comm "Invalid sequence idx"))) := by
  constructor
  · intro h
    have hs := read_step_short st res buffer h
    exact ⟨hs, by rw [read_apdu, hs]⟩
  · intro h hseq
    have hs := read_step_badseq st res buffer h hseq
    exact ⟨hs, by rw [read_apdu, hs]⟩

/-- Witness for C6: a 3-byte first read trips the short-read error, and a
full read whose header carries sequence number 5 in state `sequence_idx = 1`
trips the bad-sequence error. -/
theorem C6_read_apdu_errors_witness :
    read_apdu [((3 : ℕ), ([] : List ℕ))] initReadState
      = some (.error (.Comm "Read error. Incomplete header")) ∧
    read_apdu [((64 : ℕ), ([1, 1, 5, 0, 5] : List ℕ))] ⟨1, 130, []⟩
      = some (.error (.Comm "Invalid sequence idx")) :=
  ⟨((C6_read_apdu_errors initReadState 3 [] []).1 (by decide)).2,
   ((C6_read_apdu_errors ⟨1, 130, []⟩ 64 [1, 1, 5, 0, 5] []).2
      (by decide) (by decide)).2⟩

/-! ### C2: the 130-byte read scenario -/

/-- C2: when packet 0 declares an expected length of 130 and full 64-byte
packets with correct consecutive sequence numbers keep arriving, the
`read_apdu` loop terminates after reading exactly 3 packets (it does not
finish within 2) and returns an accumulated buffer of exactly 130 bytes. -/
theorem C2_read_apdu_130 (b0 b1 b2 : List ℕ)
    (hl0 : b0.length = 64) (hl1 : b1.length = 64) (hl2 : b2.length = 64)
    (h03 : b0.getD 3 0 = 0) (h04 : b0.getD 4 0 = 0)
    (h05 : b0.getD 5 0 = 0) (h06 : b0.getD 6 0 = 130)
    (h13 : b1.getD 3 0 = 0) (h14 : b1.getD 4 0 = 1)
    (h23 : b2.getD 3 0 = 0) (h24 : b2.getD 4 0 = 2) :
    (∃ ans, read_apdu [(64, b0), (64, b1), (64, b2)] initReadState
        = some (.ok ans) ∧ ans.length = 130) ∧
    read_apdu [(64, b0), (64, b1)] initReadState = none := by
  have hd0 : (b0.drop 7).length = 57 := by rw [List.length_drop, hl0]
  have hd1 : (b1.drop 5).length = 59 := by rw [List.length_drop, hl1]
  have hd2 : (b2.drop 5).length = 59 := by rw [List.length_drop, hl2]
  have s0 : read_step initReadState 64 b0 = .ok (.inl ⟨1, 130, b0.drop 7⟩) := by
    rw [read_step_first 64 b0 (by omega) (by rw [h03, h04]; rfl)]
    rw [h05, h06]
    have hb : be16 0 130 = 130 := rfl
    have hm : min (64 - 7) 130 = 57 := rfl
    rw [hb, hl0, hm, List.take_of_length_le (le_of_eq hd0)]
    rw [if_neg (by rw [hd0]; omega)]
  have s1 : read_step ⟨1, 130, b0.drop 7⟩ 64 b1
      = .ok (.inl ⟨2, 130, b0.drop 7 ++ b1.drop 5⟩) := by
    rw [read_step_cont 1 130 (b0.drop 7) 64 b1 (by omega) (by omega)
      (by rw [h13, h14]; rfl)]
    rw [hl1, hd0]
    have hm : min (64 - 5) (130 - 57) = 59 := rfl
    rw [hm, List.take_of_length_le (le_of_eq hd1)]
    rw [if_neg (by rw [List.length_append, hd0, hd1]; omega)]
  have s2 : read_step ⟨2, 130, b0.drop 7 ++ b1.drop 5⟩ 64 b2
      = .ok (.inr ((b0.drop 7 ++ b1.drop 5) ++ (b2.drop 5).take 14)) := by
    rw [read_step_cont 2 130 (b0.drop 7 ++ b1.drop 5) 64 b2 (by omega) (by omega)
      (by rw [h23, h24]; rfl)]
    simp only [List.length_append, hd0, hd1, hl2]
    have hm : min (64 - 5) (130 - (57 + 59)) = 14 := rfl
    rw [hm]
    rw [if_pos (by rw [List.length_take, hd2]; omega)]
  have hanslen : ((b0.drop 7 ++ b1.drop 5) ++ (b2.drop 5).take 14).length = 130 := by
    rw [List.length_append, List.length_append, hd0, hd1, List.length_take, hd2]
    omega
  constructor
  · refine ⟨(b0.drop 7 ++ b1.drop 5) ++ (b2.drop 5).take 14, ?_, hanslen⟩
    simp only [read_apdu, s0, s1, s2]
  · simp only [read_apdu, s0, s1]

/-- Witness for C2 with concrete packets: header `01 01 05`, sequence
numbers 0, 1, 2, declared length 130, data bytes all 9. -/
theorem C2_read_apdu_130_witness :
    (∃ ans, read_apdu
        [(64, [1, 1, 5, 0, 0, 0, 130] ++ List.replicate 57 9),
         (64, [1, 1, 5, 0, 1] ++ List.replicate 59 9),
         (64, [1, 1, 5, 0, 2] ++ List.replicate 59 9)] initReadState
        = some (.ok ans) ∧ ans.length = 130) ∧
    read_apdu
        [(64, [1, 1, 5, 0, 0, 0, 130] ++ List.replicate 57 9),
         (64, [1, 1, 5, 0, 1] ++ List.replicate 59 9)] initReadState = none :=
  C2_read_apdu_130 _ _ _ (by simp) (by simp) (by simp)
    (by decide) (by decide) (by decide) (by decide)
    (by decide) (by decide) (by decide) (by decide)

/-! ### C10: the accumulated answer never exceeds the declared length -/

theorem read_apdu_cons_err (res : ℕ) (buffer : List ℕ) (rest : List (ℕ × List ℕ))
    (st : ReadState) (e : LedgerHIDError)
    (h : read_step st res buffer = .error e) :
    read_apdu ((res, buffer) :: rest) st = some (.error e) := by
  rw [read_apdu, h]

theorem read_apdu_cons_inr (res : ℕ) (buffer : List ℕ) (rest : List (ℕ × List ℕ))
    (st : ReadState) (A : List ℕ)
    (h : read_step st res buffer = .ok (.inr A)) :
    read_apdu ((res, buffer) :: rest) st = some (.ok A) := by
  rw [read_apdu, h]

theorem read_apdu_cons_inl (res : ℕ) (buffer : List ℕ) (rest : List (ℕ × List ℕ))
    (st st2 : ReadState)
    (h : read_step st res buffer = .ok (.inl st2)) :
    read_apdu ((res, buffer) :: rest) st = read_apdu rest st2 := by
  rw [read_apdu, h]

theorem read_apdu_inv (reads : List (ℕ × List ℕ)) :
    ∀ (seq exp : ℕ) (acc : List ℕ), 1 ≤ seq → acc.length ≤ exp →
      ∀ ans, read_apdu reads ⟨seq, exp, acc⟩ = some (.ok ans) → ans.length = exp := by
  induction reads with
  | nil =>
    intro seq exp acc h1 h2 ans h
    simp [read_apdu] at h
  | cons hd rest ih =>
    obtain ⟨res, buffer⟩ := hd
    intro seq exp acc h1 h2 ans h
    rcases Nat.lt_or_ge res 5 with hres | hres
    · rw [read_apdu] at h
      rw [read_step_short ⟨seq, exp, acc⟩ res buffer (Or.inr hres)] at h
      simp at h
    · by_cases hseq : be16 (buffer.getD 3 0) (buffer.getD 4 0) = seq
      · have hlen : (acc ++ (buffer.drop 5).take (min (buffer.length - 5)
            (exp - acc.length))).length ≤ exp := by
          simp only [List.length_append, List.length_take, List.length_drop]
          omega
        by_cases hC : exp ≤ (acc ++ (buffer.drop 5).take (min (buffer.length - 5)
            (exp - acc.length))).length
        · rw [read_apdu_cons_inr res buffer rest _ _
            (by rw [read_step_cont seq exp acc res buffer h1 (by omega) hseq,
                  if_pos hC])] at h
          simp only [Option.some.injEq, Except.ok.injEq] at h
          rw [← h]
          omega
        · rw [read_apdu_cons_inl res buffer rest _ _
            (by rw [read_step_cont seq exp acc res buffer h1 (by omega) hseq,
                  if_neg hC])] at h
          exact ih (seq + 1) exp _ (by omega) hlen ans h
      · rw [read_apdu] at h
        rw [read_step_badseq ⟨seq, exp, acc⟩ res buffer
          (by simp only [read_step]; omega) (by simpa using hseq)] at h
        simp at h

/-- C10: whenever `read_apdu` returns successfully from the initial state,
the accumulated buffer's length is exactly the expected length declared in
packet 0 (each iteration copies only `min(available, missing)` bytes); in
particular a declared expected length of 0 makes `read_apdu` return an
empty buffer after the first packet. -/
theorem C10_read_apdu_expected_length :
    (∀ (res : ℕ) (b : List ℕ) (rest : List (ℕ × List ℕ)) (ans : List ℕ),
      read_apdu ((res, b) :: rest) initReadState = some (.ok ans) →
      ans.length = be16 (b.getD 5 0) (b.getD 6 0)) ∧
    (∀ (res : ℕ) (b : List ℕ) (rest : List (ℕ × List ℕ)),
      7 ≤ res → b.getD 3 0 = 0 → b.getD 4 0 = 0 → b.getD 5 0 = 0 → b.getD 6 0 = 0 →
      read_apdu ((res, b) :: rest) initReadState = some (.ok [])) := by
  constructor
  · intro res b rest ans h
    rcases Nat.lt_or_ge res 7 with hres | hres
    · rw [read_apdu_cons_err res b rest _ _
        (read_step_short initReadState res b (Or.inl ⟨rfl, hres⟩))] at h
      simp at h
    · by_cases hseq : be16 (b.getD 3 0) (b.getD 4 0) = 0
      · have hlen : ((b.drop 7).take (min (b.length - 7)
            (be16 (b.getD 5 0) (b.getD 6 0)))).length
            ≤ be16 (b.getD 5 0) (b.getD 6 0) := by
          simp only [List.length_take, List.length_drop]
          omega
        by_cases hC : be16 (b.getD 5 0) (b.getD 6 0) ≤
            ((b.drop 7).take (min (b.length - 7) (be16 (b.getD 5 0) (b.getD 6 0)))).length
        · rw [read_apdu_cons_inr res b rest _ _
            (by rw [read_step_first res b hres hseq, if_pos hC])] at h
          simp only [Option.some.injEq, Except.ok.injEq] at h
          rw [← h]
          omega
        · rw [read_apdu_cons_inl res b rest _ _
            (by rw [read_step_first res b hres hseq, if_neg hC])] at h
          exact read_apdu_inv rest 1 _ _ (by omega) hlen ans h
      · rw [read_apdu_cons_err res b rest _ _
          (read_step_badseq initReadState res b (by simp [initReadState]; omega)
            (by simpa [initReadState] using hseq))] at h
        simp at h
  · intro res b rest hres h3 h4 h5 h6
    rw [read_apdu, read_step_first res b hres (by rw [h3, h4]; rfl)]
    rw [h5, h6]
    have hz : be16 0 0 = 0 := rfl
    rw [hz]
    simp

/-- Witness for C10: a single 8-byte read declaring and carrying a 2-byte
answer, and a first packet declaring length 0. -/
theorem C10_read_apdu_expected_length_witness :
    ([9, 9] : List ℕ).length
      = be16 (([1, 1, 5, 0, 0, 0, 2, 9, 9] : List ℕ).getD 5 0)
             (([1, 1, 5, 0, 0, 0, 2, 9, 9] : List ℕ).getD 6 0) ∧
    read_apdu [((7 : ℕ), ([1, 1, 5, 0, 0, 0, 0] : List ℕ))] initReadState
      = some (.ok []) :=
  ⟨C10_read_apdu_expected_length.1 9 [1, 1, 5, 0, 0, 0, 2, 9, 9] [] [9, 9] (by rfl),
   C10_read_apdu_expected_length.2 7 [1, 1, 5, 0, 0, 0, 0] []
     (by decide) (by decide) (by decide) (by decide) (by decide)⟩

/-! ### C7: the `exchange` short-response guard protects `from_answer` -/

/-- C7: `exchange` runs `write_apdu` then `read_apdu`; whenever the
reassembled raw answer is shorter than 2 bytes it returns the
short-response communication error, and otherwise `from_answer` is invoked
on a buffer of at least 2 bytes and succeeds (its last-two-bytes indexing
cannot underflow in any execution of `exchange`: the panic branch is
unreachable). -/
theorem C7_exchange_short_guard (reads : List (ℕ × List ℕ)) (command : APDUCommand)
    (answer : List ℕ)
    (h : read_apdu reads initReadState = some (.ok answer)) :
    (answer.length < 2 →
      exchange reads command = some (.error (.Comm "response was too short"))) ∧
    (2 ≤ answer.length →
      APDUAnswer.from_answer answer
        = some { data := answer.take (answer.length - 2),
                 retcode := be16 (answer.getD (answer.length - 2) 0)
                                 (answer.getD (answer.length - 1) 0) } ∧
      exchange reads command
        = some (.ok { data := answer.take (answer.length - 2),
                      retcode := be16 (answer.getD (answer.length - 2) 0)
                                      (answer.getD (answer.length - 1) 0) })) := by
  constructor
  · intro hlt
    simp only [exchange, h]
    rw [if_pos hlt]
  · intro hge
    have hfa : APDUAnswer.from_answer answer
        = some { data := answer.take (answer.length - 2),
                 retcode := be16 (answer.getD (answer.length - 2) 0)
                                 (answer.getD (answer.length - 1) 0) } := by
      simp [APDUAnswer.from_answer, hge]
    refine ⟨hfa, ?_⟩
    simp only [exchange, h]
    rw [if_neg (by omega), hfa]

/-- Witness for C7: a single 10-byte read reassembling the 3-byte answer
`[7, 144, 0]`; `exchange` returns payload `[7]` and status word `0x9000`. -/
theorem C7_exchange_short_guard_witness :
    APDUAnswer.from_answer [7, 144, 0] = some { data := [7], retcode := 36864 } ∧
    exchange [((10 : ℕ), ([1, 1, 5, 0, 0, 0, 3, 7, 144, 0] : List ℕ))]
        ⟨0, 0, 0, 0, []⟩
      = some (.ok { data := [7], retcode := 36864 }) := by
  obtain ⟨hfa, hex⟩ :=
    (C7_exchange_short_guard [(10, [1, 1, 5, 0, 0, 0, 3, 7, 144, 0])]
      ⟨0, 0, 0, 0, []⟩ [7, 144, 0] (by rfl)).2 (by decide)
  constructor
  · simpa [be16] using hfa
  · simpa [be16] using hex

/-! ### `send_loop` characterization -/

theorem send_loop_ok (tr : ℕ → APDUAnswer) (cla ins last : ℕ) :
    ∀ (cs : List (List ℕ)) (p : ℕ) (prev : APDUAnswer),
      (∀ j, p < j → j ≤ p + cs.length → (tr j).retcode = 0x9000) →
      send_loop tr cla ins last prev p cs
        = ((if cs.length = 0 then Except.ok prev else Except.ok (tr (p + cs.length))),
           (List.range cs.length).map (fun i =>
             APDUCommand.mk cla ins
               (if p + i = last then ChunkPayloadType.Last else ChunkPayloadType.Add)
               0 (cs.getD i []))) := by
  intro cs
  induction cs with
  | nil =>
    intro p prev h
    simp [send_loop]
  | cons c cs ih =>
    intro p prev h
    have h1 : (tr (p + 1)).retcode = 0x9000 :=
      h (p + 1) (by omega) (by simp only [List.length_cons]; omega)
    have hfun : ((fun i =>
        APDUCommand.mk cla ins
          (if p + i = last then ChunkPayloadType.Last else ChunkPayloadType.Add)
          0 ((c :: cs).getD i [])) ∘ Nat.succ)
        = (fun i =>
        APDUCommand.mk cla ins
          (if p + 1 + i = last then ChunkPayloadType.Last else ChunkPayloadType.Add)
          0 (cs.getD i [])) := by
      funext i
      have e : p + (i + 1) = p + 1 + i := by omega
      simp [Function.comp, e]
    simp only [send_loop]
    rw [if_neg (not_not_intro h1)]
    rw [ih (p + 1) (tr (p + 1))
      (fun j hj1 hj2 => h j (by omega) (by simp only [List.length_cons]; omega))]
    refine Prod.ext ?_ ?_
    · simp only [List.length_cons]
      rw [if_neg (Nat.succ_ne_zero cs.length)]
      by_cases h0 : cs.length = 0
      · simp [h0]
      · rw [if_neg h0]
        have e : p + 1 + cs.length = p + (cs.length + 1) := by omega
        rw [e]
    · simp only [List.length_cons, List.range_succ_eq_map, List.map_cons, List.map_map]
      rw [hfun]
      simp

theorem send_loop_fail (tr : ℕ → APDUAnswer) (cla ins last : ℕ) :
    ∀ (cs : List (List ℕ)) (p : ℕ) (prev : APDUAnswer) (f : ℕ),
      p < f → f ≤ p + cs.length →
      (∀ j, p < j → j < f → (tr j).retcode = 0x9000) →
      (tr f).retcode ≠ 0x9000 →
      send_loop tr cla ins last prev p cs
        = (.error (.AppSpecific (tr f).retcode
             (map_apdu_error_description (tr f).retcode)),
           (List.range (f - p)).map (fun i =>
             APDUCommand.mk cla ins
               (if p + i = last then ChunkPayloadType.Last else ChunkPayloadType.Add)
               0 (cs.getD i []))) := by
  intro cs
  induction cs with
  | nil =>
    intro p prev f hpf hfle h hf
    simp only [List.length_nil, Nat.add_zero] at hfle
    omega
  | cons c cs ih =>
    intro p prev f hpf hfle h hf
    simp only [send_loop]
    have hfun : ((fun i =>
        APDUCommand.mk cla ins
          (if p + i = last then ChunkPayloadType.Last else ChunkPayloadType.Add)
          0 ((c :: cs).getD i [])) ∘ Nat.succ)
        = (fun i =>
        APDUCommand.mk cla ins
          (if p + 1 + i = last then ChunkPayloadType.Last else ChunkPayloadType.Add)
          0 (cs.getD i [])) := by
      funext i
      have e : p + (i + 1) = p + 1 + i := by omega
      simp [Function.comp, e]
    by_cases heq : f = p + 1
    · rw [if_pos (by rw [← heq]; exact hf)]
      have hr : f - p = 1 := by omega
      rw [hr, heq]
      simp [List.range_succ]
    · have h1 : (tr (p + 1)).retcode = 0x9000 := h (p + 1) (by omega) (by omega)
      rw [if_neg (not_not_intro h1)]
      rw [ih (p + 1) (tr (p + 1)) f (by omega)
        (by simp only [List.length_cons] at hfle; omega)
        (fun j hj1 hj2 => h j (by omega) hj2) hf]
      refine Prod.ext rfl ?_
      have hr : f - p = (f - (p + 1)) + 1 := by omega
      simp only [hr, List.range_succ_eq_map, List.map_cons, List.map_map]
      rw [hfun]
      simp

/-! ### C4 and C5: the chunked message protocol of `send_chunks` -/

/-- C4: with a valid Init start command and a message of `n ≥ 1` pieces,
every piece `i` is sent as a Command with the start command's class and
instruction, `param1 = Add (0x01)` except `Last (0x02)` for the final
piece, `param2 = 0`, and that piece's bytes as payload.  On the first
exchange (index 0 = init, index `i + 1` = piece `i`) whose status word is
not `0x9000`, `send_chunks` aborts with an `AppSpecific` error carrying
that status word and its mapped description, having issued exactly the
exchanges up to and including the failing one; for `0x6985` the
description contains "Conditions of use not satisfied".  If every exchange
succeeds, the Answer of the last piece's exchange is returned. -/
theorem C4_send_chunks_protocol (tr : ℕ → APDUAnswer) (start : APDUCommand)
    (message : List ℕ)
    (hne : (chunkList USER_MESSAGE_CHUNK_SIZE message).length ≠ 0)
    (hle : (chunkList USER_MESSAGE_CHUNK_SIZE message).length ≤ 255)
    (hp1 : start.p1 = ChunkPayloadType.Init) :
    map_apdu_error_description 0x6985
      = "APDU_CODE_CONDITIONS_NOT_SATISFIED - Conditions of use not satisfied" ∧
    ((∀ j, j ≤ (chunkList USER_MESSAGE_CHUNK_SIZE message).length →
        (tr j).retcode = 0x9000) →
      send_chunks tr start message
        = (.ok (tr (chunkList USER_MESSAGE_CHUNK_SIZE message).length),
           start :: (List.range (chunkList USER_MESSAGE_CHUNK_SIZE message).length).map
             (fun i => APDUCommand.mk start.cla start.ins
               (if i = (chunkList USER_MESSAGE_CHUNK_SIZE message).length - 1
                then ChunkPayloadType.Last else ChunkPayloadType.Add)
               0 ((chunkList USER_MESSAGE_CHUNK_SIZE message).getD i [])))) ∧
    (∀ f, f ≤ (chunkList USER_MESSAGE_CHUNK_SIZE message).length →
      (∀ j, j < f → (tr j).retcode = 0x9000) →
      (tr f).retcode ≠ 0x9000 →
      send_chunks tr start message
        = (.error (.AppSpecific (tr f).retcode
             (map_apdu_error_description (tr f).retcode)),
           start :: (List.range f).map
             (fun i => APDUCommand.mk start.cla start.ins
               (if i = (chunkList USER_MESSAGE_CHUNK_SIZE message).length - 1
                then ChunkPayloadType.Last else ChunkPayloadType.Add)
               0 ((chunkList USER_MESSAGE_CHUNK_SIZE message).getD i [])))) := by
  refine ⟨rfl, ?_, ?_⟩
  · intro hall
    simp only [send_chunks]
    rw [if_neg hne, if_neg (by omega), if_neg (not_not_intro hp1),
      if_neg (not_not_intro (hall 0 (Nat.zero_le _)))]
    rw [send_loop_ok tr start.cla start.ins
      ((chunkList USER_MESSAGE_CHUNK_SIZE message).length - 1)
      (chunkList USER_MESSAGE_CHUNK_SIZE message) 0 (tr 0)
      (fun j hj1 hj2 => hall j (by omega))]
    rw [if_neg hne]
    simp only [Nat.zero_add]
  · intro f hfle hok hf
    simp only [send_chunks]
    rw [if_neg hne, if_neg (by omega), if_neg (not_not_intro hp1)]
    rcases Nat.eq_zero_or_pos f with hf0 | hf1
    · subst hf0
      rw [if_pos hf]
      simp
    · rw [if_neg (not_not_intro (hok 0 hf1))]
      rw [send_loop_fail tr start.cla start.ins
        ((chunkList USER_MESSAGE_CHUNK_SIZE message).length - 1)
        (chunkList USER_MESSAGE_CHUNK_SIZE message) 0 (tr 0) f hf1 (by omega)
        (fun j hj1 hj2 => hok j hj2) hf]
      simp only [Nat.sub_zero, Nat.zero_add]

/-- Witness for C4: a 600-byte message (3 pieces) where the third piece's
exchange (overall exchange 3) returns `0x6985`: `send_chunks` aborts with
the mapped `AppSpecific` error after exactly 4 exchanged commands
(init plus 3 pieces), never attempting a fourth piece. -/
theorem C4_send_chunks_protocol_witness :
    (send_chunks
        (fun j => if j = 3 then ⟨[], 0x6985⟩ else ⟨[], 0x9000⟩)
        ⟨0xE0, 0x23, 0, 0, []⟩ (List.replicate 600 1)).1
      = .error (.AppSpecific 0x6985
          "APDU_CODE_CONDITIONS_NOT_SATISFIED - Conditions of use not satisfied") ∧
    (send_chunks
        (fun j => if j = 3 then ⟨[], 0x6985⟩ else ⟨[], 0x9000⟩)
        ⟨0xE0, 0x23, 0, 0, []⟩ (List.replicate 600 1)).2.length = 4 := by
  have hn : (chunkList USER_MESSAGE_CHUNK_SIZE (List.replicate 600 1)).length = 3 := by
    rw [chunkList_length USER_MESSAGE_CHUNK_SIZE (by simp [USER_MESSAGE_CHUNK_SIZE]) _,
      List.length_replicate]
    simp [USER_MESSAGE_CHUNK_SIZE]
  have happ := (C4_send_chunks_protocol
      (fun j => if j = 3 then ⟨[], 0x6985⟩ else ⟨[], 0x9000⟩)
      ⟨0xE0, 0x23, 0, 0, []⟩ (List.replicate 600 1)
      (by rw [hn]; omega) (by rw [hn]; omega) rfl).2.2 3 (by rw [hn])
      (by intro j hj; simp [show j ≠ 3 by omega]) (by simp)
  rw [happ]
  constructor
  · rfl
  · simp

/-- C5: `send_chunks` rejects, before any exchange (the issued command
list is empty): an empty message with `InvalidEmptyMessage`, a message of
more than 255 pieces with `InvalidMessageSize`, and a start command whose
`p1` is not Init with `InvalidChunkPayloadType`; at the boundary, a
message of exactly `250 × 255` bytes splits into 255 pieces and passes
these checks (the start command is exchanged), while `250 × 255 + 1` bytes
gives 256 pieces and fails with `InvalidMessageSize`. -/
theorem C5_send_chunks_precheck (tr : ℕ → APDUAnswer) (start : APDUCommand) :
    send_chunks tr start [] = (.error .InvalidEmptyMessage, []) ∧
    (∀ message : List ℕ, 255 < (chunkList USER_MESSAGE_CHUNK_SIZE message).length →
      send_chunks tr start message = (.error .InvalidMessageSize, [])) ∧
    (∀ message : List ℕ, (chunkList USER_MESSAGE_CHUNK_SIZE message).length ≠ 0 →
      (chunkList USER_MESSAGE_CHUNK_SIZE message).length ≤ 255 →
      start.p1 ≠ ChunkPayloadType.Init →
      send_chunks tr start message = (.error .InvalidChunkPayloadType, [])) ∧
    (∀ message : List ℕ, message.length = 250 * 255 →
      (chunkList USER_MESSAGE_CHUNK_SIZE message).length = 255 ∧
      (start.p1 = ChunkPayloadType.Init →
        (send_chunks tr start message).2.head? = some start)) ∧
    (∀ message : List ℕ, message.length = 250 * 255 + 1 →
      (chunkList USER_MESSAGE_CHUNK_SIZE message).length = 256 ∧
      send_chunks tr start message = (.error .InvalidMessageSize, [])) := by
  have hn250 : 1 ≤ USER_MESSAGE_CHUNK_SIZE := by simp [USER_MESSAGE_CHUNK_SIZE]
  refine ⟨?_, ?_, ?_, ?_, ?_⟩
  · simp [send_chunks, chunkList]
  · intro message h
    simp only [send_chunks]
    rw [if_neg (by omega), if_pos h]
  · intro message h0 h255 hp1
    simp only [send_chunks]
    rw [if_neg h0, if_neg (by omega), if_pos hp1]
  · intro message hlen
    have hc : (chunkList USER_MESSAGE_CHUNK_SIZE message).length = 255 := by
      rw [chunkList_length USER_MESSAGE_CHUNK_SIZE hn250 _, hlen]
      simp [USER_MESSAGE_CHUNK_SIZE]
    refine ⟨hc, ?_⟩
    intro hp1
    simp only [send_chunks]
    rw [if_neg (by omega), if_neg (by omega), if_neg (not_not_intro hp1)]
    by_cases hr0 : (tr 0).retcode ≠ 0x9000
    · rw [if_pos hr0]
      rfl
    · rw [if_neg hr0]
      rfl
  · intro message hlen
    have hc : (chunkList USER_MESSAGE_CHUNK_SIZE message).length = 256 := by
      rw [chunkList_length USER_MESSAGE_CHUNK_SIZE hn250 _, hlen]
      simp [USER_MESSAGE_CHUNK_SIZE]
    refine ⟨hc, ?_⟩
    simp only [send_chunks]
    rw [if_neg (by omega), if_pos (by omega)]

/-- Witness for C5 at a transport that always answers `0x9000`, a start
command with `p1 = 0`, one with `p1 = 1`, and the two boundary message
sizes. -/
theorem C5_send_chunks_precheck_witness :
    send_chunks (fun _ => ⟨[], 0x9000⟩) ⟨1, 2, 0, 0, []⟩ []
      = (.error .InvalidEmptyMessage, []) ∧
    send_chunks (fun _ => ⟨[], 0x9000⟩) ⟨1, 2, 1, 0, []⟩ (List.replicate 300 4)
      = (.error .InvalidChunkPayloadType, []) ∧
    (chunkList USER_MESSAGE_CHUNK_SIZE (List.replicate (250 * 255) 4)).length = 255 ∧
    (send_chunks (fun _ => ⟨[], 0x9000⟩) ⟨1, 2, 0, 0, []⟩
        (List.replicate (250 * 255) 4)).2.head? = some ⟨1, 2, 0, 0, []⟩ ∧
    (chunkList USER_MESSAGE_CHUNK_SIZE (List.replicate (250 * 255 + 1) 4)).length = 256 ∧
    send_chunks (fun _ => ⟨[], 0x9000⟩) ⟨1, 2, 0, 0, []⟩ (List.replicate (250 * 255 + 1) 4)
      = (.error .InvalidMessageSize, []) := by
  have h2 : (chunkList USER_MESSAGE_CHUNK_SIZE (List.replicate 300 4)).length = 2 := by
    rw [chunkList_length USER_MESSAGE_CHUNK_SIZE (by simp [USER_MESSAGE_CHUNK_SIZE]) _,
      List.length_replicate]
    simp [USER_MESSAGE_CHUNK_SIZE]
  obtain ⟨w1, w2, w3, w4, w5⟩ :=
    C5_send_chunks_precheck (fun _ => ⟨[], 0x9000⟩) ⟨1, 2, 0, 0, []⟩
  obtain ⟨v1, v2, v3, v4, v5⟩ :=
    C5_send_chunks_precheck (fun _ => ⟨[], 0x9000⟩) ⟨1, 2, 1, 0, []⟩
  obtain ⟨hb1, hb2⟩ := w4 (List.replicate (250 * 255) 4) (by rw [List.length_replicate])
  obtain ⟨hc1, hc2⟩ := w5 (List.replicate (250 * 255 + 1) 4) (by rw [List.length_replicate])
  exact ⟨w1, v3 (List.replicate 300 4) (by rw [h2]; omega) (by rw [h2]; omega) (by decide),
    hb1, hb2 rfl, hc1, hc2⟩

/-- C8 helper: the serialized frame reparsed at fixed offsets. -/
theorem serialize_fields (c : APDUCommand) :
    c.serialize.getD 0 0 = c.cla ∧ c.serialize.getD 1 0 = c.ins ∧
    c.serialize.getD 2 0 = c.p1 ∧ c.serialize.getD 3 0 = c.p2 ∧
    c.serialize.getD 4 0 = c.data.length % 256 ∧
    c.serialize.drop 5 = c.data ∧
    c.serialize.length = c.data.length + 5 := by
  refine ⟨rfl, rfl, rfl, rfl, rfl, rfl, ?_⟩
  simp [APDUCommand.serialize]

/-- C8: for every Command whose payload length is at most 255, `serialize`
produces exactly `[cla, ins, p1, p2, len(payload)]` followed by the payload
bytes, and reparsing the fixed offsets of the output recovers `cla`, `ins`,
`p1`, `p2` and a payload of length `len`. -/
theorem C8_serialize_roundtrip (c : APDUCommand) (h : c.data.length ≤ 255) :
    c.serialize = c.cla :: c.ins :: c.p1 :: c.p2 :: c.data.length :: c.data ∧
    c.serialize.getD 0 0 = c.cla ∧ c.serialize.getD 1 0 = c.ins ∧
    c.serialize.getD 2 0 = c.p1 ∧ c.serialize.getD 3 0 = c.p2 ∧
    c.serialize.getD 4 0 = c.data.length ∧
    c.serialize.drop 5 = c.data ∧
    c.serialize.length = c.data.length + 5 := by
  have hm : c.data.length % 256 = c.data.length := Nat.mod_eq_of_lt (by omega)
  obtain ⟨h0, h1, h2, h3, h4, h5, h6⟩ := serialize_fields c
  exact ⟨by simp [APDUCommand.serialize, hm], h0, h1, h2, h3, hm ▸ h4, h5, h6⟩

/-- Witness for C8 at the concrete command `⟨1, 2, 3, 4, [9, 8]⟩`. -/
theorem C8_serialize_roundtrip_witness :
    (⟨1, 2, 3, 4, [9, 8]⟩ : APDUCommand).data.length ≤ 255 ∧
    ((⟨1, 2, 3, 4, [9, 8]⟩ : APDUCommand).serialize = [1, 2, 3, 4, 2, 9, 8] ∧
      (⟨1, 2, 3, 4, [9, 8]⟩ : APDUCommand).serialize.getD 0 0 = 1 ∧
      (⟨1, 2, 3, 4, [9, 8]⟩ : APDUCommand).serialize.getD 1 0 = 2 ∧
      (⟨1, 2, 3, 4, [9, 8]⟩ : APDUCommand).serialize.getD 2 0 = 3 ∧
      (⟨1, 2, 3, 4, [9, 8]⟩ : APDUCommand).serialize.getD 3 0 = 4 ∧
      (⟨1, 2, 3, 4, [9, 8]⟩ : APDUCommand).serialize.getD 4 0 = 2 ∧
      (⟨1, 2, 3, 4, [9, 8]⟩ : APDUCommand).serialize.drop 5 = [9, 8] ∧
      (⟨1, 2, 3, 4, [9, 8]⟩ : APDUCommand).serialize.length = 2 + 5) :=
  ⟨by decide, C8_serialize_roundtrip ⟨1, 2, 3, 4, [9, 8]⟩ (by decide)⟩

/-- C9: for every Command whose payload length `L` exceeds 255, `serialize`
writes the declared length byte as `L % 256` while still emitting all `L`
payload bytes: total length `L + 5`, declared length byte unequal to the
actual payload length, payload untruncated, and no failure (the result is
always the full frame). -/
theorem C9_serialize_overflow (c : APDUCommand) (h : 255 < c.data.length) :
    c.serialize.getD 4 0 = c.data.length % 256 ∧
    c.serialize.getD 4 0 ≠ c.data.length ∧
    c.serialize.length = c.data.length + 5 ∧
    c.serialize.drop 5 = c.data := by
  obtain ⟨_, _, _, _, h4, h5, h6⟩ := serialize_fields c
  refine ⟨h4, ?_, h6, h5⟩
  rw [h4]
  have := Nat.mod_lt c.data.length (show 0 < 256 by omega)
  omega

/-- Witness for C9 at a command with a 256-byte payload. -/
theorem C9_serialize_overflow_witness :
    255 < (⟨1, 2, 3, 4, List.replicate 256 7⟩ : APDUCommand).data.length ∧
    ((⟨1, 2, 3, 4, List.replicate 256 7⟩ : APDUCommand).serialize.getD 4 0 = 256 % 256 ∧
      (⟨1, 2, 3, 4, List.replicate 256 7⟩ : APDUCommand).serialize.getD 4 0 ≠ 256 ∧
      (⟨1, 2, 3, 4, List.replicate 256 7⟩ : APDUCommand).serialize.length = 256 + 5 ∧
      (⟨1, 2, 3, 4, List.replicate 256 7⟩ : APDUCommand).serialize.drop 5 =
        List.replicate 256 7) := by
  refine ⟨by simp, ?_⟩
  have h := C9_serialize_overflow ⟨1, 2, 3, 4, List.replicate 256 7⟩ (by simp)
  simpa using h

/-- C3 counterexample: on a 1-byte (resp. empty) raw answer,
`APDUAnswer.from_answer` produces no value at all — the index
`answer.len() - 2` underflows and the code panics (modelled as `none`);
no transport-error value is returned (the function's return type has no
error channel). -/
theorem C3_from_answer_short_panics :
    APDUAnswer.from_answer [0] = none ∧ APDUAnswer.from_answer [] = none := by
  constructor <;> rfl

/-- C3 (amended): for every raw answer of length ≥ 2, `from_answer` returns
an Answer whose status word is the big-endian value of the last two bytes
and whose payload is all preceding bytes; for length < 2 it panics
(modelled `none`) rather than returning a transport error — the short
answer guard lives in `exchange`, not in `from_answer`. -/
theorem C3_from_answer_spec (answer : List ℕ) :
    (2 ≤ answer.length →
      APDUAnswer.from_answer answer =
        some { data := answer.take (answer.length - 2),
               retcode := be16 (answer.getD (answer.length - 2) 0)
                               (answer.getD (answer.length - 1) 0) }) ∧
    (answer.length < 2 → APDUAnswer.from_answer answer = none) := by
  constructor
  · intro h
    simp [APDUAnswer.from_answer, h]
  · intro h
    simp [APDUAnswer.from_answer, Nat.not_le.mpr h]

/-- Witness for C3 (amended) at the concrete answer `[7, 144, 0]`. -/
theorem C3_from_answer_spec_witness :
    (2 ≤ ([7, 144, 0] : List ℕ).length →
      APDUAnswer.from_answer [7, 144, 0] =
        some { data := [7], retcode := be16 144 0 }) ∧
    (([7, 144, 0] : List ℕ).length < 2 →
      APDUAnswer.from_answer [7, 144, 0] = none) :=
  C3_from_answer_spec [7, 144, 0]

end GrinHW
